import Mathlib

/-!
# Verification of the DocumentList extension

A shallow embedding, in Lean 4, of the rule-evaluation and reconciliation
engine of the DocumentList HubSpot extension
(`src/DocumentList/src/app/extensions/DocumentList.tsx` and
`src/DocumentList/src/app/app.functions/updateDocuments.js`), together with
theorems settling the specification claims about it.

JavaScript strings are modelled through explicit functions over `List Char`
(`jsTrim` for `String.prototype.trim`, `collapseWs` for
`replace(/\s+/g, ' ')`, `splitOnCharStr` for `split(sep)`, `jsToLower` for
`toLowerCase`, `jsIncludes` for `includes`), record property bags as
association lists, and the HubSpot update API as an oracle assigning a
result to each successive call.
-/

namespace DocList

/-! ## JavaScript string primitives -/

/-- Whitespace as recognised by `trim` and `\s` (the characters that occur
in HubSpot property values). -/
def isWs (c : Char) : Bool :=
  c == ' ' || c == '\t' || c == '\n' || c == '\r'

/-- Drop trailing whitespace characters. -/
def dropTrailWs : List Char → List Char
  | [] => []
  | c :: rest =>
    match dropTrailWs rest with
    | [] => if isWs c then [] else [c]
    | r => c :: r

/-- Remove leading and trailing whitespace from a character list. -/
def trimList (l : List Char) : List Char :=
  dropTrailWs (l.dropWhile isWs)

/-- Model of `String.prototype.trim()`. -/
def jsTrim (s : String) : String :=
  ⟨trimList s.data⟩

/-- Worker for `collapseWs`: the flag records whether the previous character
was whitespace (so its run has already emitted one space). -/
def collapseGo : Bool → List Char → List Char
  | _, [] => []
  | prevWs, c :: rest =>
    if isWs c then
      if prevWs then collapseGo true rest
      else ' ' :: collapseGo true rest
    else c :: collapseGo false rest

/-- Model of `replace(/\s+/g, ' ')`: every maximal whitespace run becomes one space. -/
def collapseWs (s : String) : String :=
  ⟨collapseGo false s.data⟩

/-- The `normalizeForComparison` helper from the source: trim, then collapse internal
whitespace runs to single spaces. -/
def normalizeForComparison (s : String) : String :=
  collapseWs (jsTrim s)

/-- Model of `String.prototype.toLowerCase()` (ASCII). -/
def jsToLower (s : String) : String :=
  ⟨s.data.map Char.toLower⟩

/-- Model of `split(sep)` on a character list: every occurrence of `sep` separates
fields, empty fields are kept. -/
def splitList (sep : Char) : List Char → List (List Char)
  | [] => [[]]
  | c :: rest =>
    if c == sep then [] :: splitList sep rest
    else
      match splitList sep rest with
      | [] => [[c]]
      | h :: t => (c :: h) :: t

/-- Model of `String.prototype.split(sep)` for a one-character separator. -/
def splitOnCharStr (sep : Char) (s : String) : List String :=
  (splitList sep s.data).map fun l => ⟨l⟩

/-- Model of `Array.prototype.join(sep)` on character lists. -/
def joinL (sep : Char) : List (List Char) → List Char
  | [] => []
  | [x] => x
  | x :: xs => x ++ sep :: joinL sep xs

/-- Join a list of strings with a one-character separator. -/
def joinStr (sep : Char) (items : List String) : String :=
  ⟨joinL sep (items.map String.data)⟩

/-- Model of `String.prototype.includes(c)` for a single character. -/
def containsChar (s : String) (c : Char) : Bool :=
  s.data.contains c

/-- Model of `String.prototype.includes(sub)`: substring containment. -/
def jsIncludes (s sub : String) : Bool :=
  decide (sub.data <:+: s.data)

/-! ## Data model

`Condition`, `TabConfig`, `DocumentConfig` and `Document` mirror the
interfaces of `DocumentList.tsx`; the operator is kept as a raw string
because the configuration is cast from JSON and the evaluator switches on
the string at run time.  A property bag value is either a string or a
native list (HubSpot multi-select). -/

structure DocumentCondition where
  property : String
  operator : String
  value : String
  deriving DecidableEq, Repr

structure TabConfig where
  order : Int
  conditions : List DocumentCondition
  deriving DecidableEq, Repr

structure DocumentConfig where
  id : String
  name : String
  requiredProperty : String
  providedProperty : String
  tabConfig : List (String × TabConfig)
  deriving DecidableEq, Repr

structure Document where
  id : String
  name : String
  required : Bool
  provided : Bool
  requiredProperty : String
  providedProperty : String
  tabConfig : List (String × TabConfig)
  deriving DecidableEq, Repr

inductive PropValue where
  | str (s : String)
  | list (l : List String)
  deriving DecidableEq, Repr

/-- A HubSpot record's property bag: field name to value, in object key
order. -/
abbrev Bag := List (String × PropValue)

/-- JavaScript truthiness of a bag value (`""` is falsy, arrays are
truthy). -/
def PropValue.truthy : PropValue → Bool
  | .str s => s != ""
  | .list _ => true

/-- Model of `String(value)` for a bag value: arrays are joined with `,`. -/
def PropValue.toStr : PropValue → String
  | .str s => s
  | .list l => joinStr ',' l

/-- Exact key lookup, as in `properties[key]`. -/
def bagGet (bag : Bag) (key : String) : Option PropValue :=
  match bag.find? (fun p => p.1 == key) with
  | some p => some p.2
  | none => none

/-- Key lookup with the evaluator's case-insensitive fallback scan
(`Object.keys(properties).find(k => k.toLowerCase() === ...)`). -/
def bagLookup (bag : Bag) (key : String) : Option PropValue :=
  match bagGet bag key with
  | some v => some v
  | none =>
    match bag.find? (fun p => jsToLower p.1 == jsToLower key) with
    | some p => some p.2
    | none => none

/-- Replace the value under `key`, or append the binding (JS object
assignment). -/
def bagSet (bag : Bag) (key : String) (v : PropValue) : Bag :=
  if bag.any (fun p => p.1 == key) then
    bag.map (fun p => if p.1 == key then (p.1, v) else p)
  else bag ++ [(key, v)]

/-- The `toBool` helper from the source: converts HubSpot property value formats to a
boolean (`"true"`, `"1"`, `"yes"`, `"oui"` are true after lowercasing and
trimming; everything else, including absent and empty values, is false;
a native list is truthy). -/
def toBool (v : Option PropValue) : Bool :=
  match v with
  | none => false
  | some (.list _) => true
  | some (.str s) =>
    if s == "" then false
    else
      let lower := jsTrim (jsToLower s)
      lower == "true" || lower == "1" || lower == "yes" || lower == "oui"

/-! ## Condition Evaluator (`evaluateCondition`) -/

/-- The `evaluateCondition` function from the source: evaluates one condition against the
record properties.  The operator dispatch mirrors the `switch`, with the
permissive `default: return true`. -/
def evaluateCondition (cond : DocumentCondition) (properties : Bag) : Bool :=
  let propertyValue := bagLookup properties cond.property
  let propValueStr :=
    match propertyValue with
    | some v => if v.truthy then jsTrim v.toStr else ""
    | none => ""
  let conditionValue := jsTrim cond.value
  if cond.operator == "equals" then
    propValueStr == conditionValue
  else if cond.operator == "not_equals" then
    propValueStr != conditionValue
  else if cond.operator == "contains" then
    jsIncludes (jsToLower propValueStr) (jsToLower conditionValue)
  else if cond.operator == "not_contains" then
    !jsIncludes (jsToLower propValueStr) (jsToLower conditionValue)
  else if cond.operator == "in" then
    if propertyValue.isNone || propValueStr == "" then false
    else
      let normalizedConditionValue := jsTrim conditionValue
      let normalizedPropertyValue := jsTrim propValueStr
      match propertyValue with
      | some (.list l) =>
        l.any fun val => jsTrim val == normalizedConditionValue
      | _ =>
        let normalizedCondition := normalizeForComparison normalizedConditionValue
        if containsChar normalizedPropertyValue ';' then
          (((splitOnCharStr ';' normalizedPropertyValue).map
              normalizeForComparison).filter (fun v => v != "")).any
            (fun val => val == normalizedCondition)
        else if containsChar normalizedPropertyValue ',' then
          (((splitOnCharStr ',' normalizedPropertyValue).map
              normalizeForComparison).filter (fun v => v != "")).any
            (fun val => val == normalizedCondition)
        else normalizeForComparison normalizedPropertyValue == normalizedCondition
  else true

/-! ## Requirement Resolver -/

/-- The `documentBelongsToTab` helper: a document belongs to a tab iff its `tabConfig`
has an entry for that tab id. -/
def documentBelongsToTab (doc : Document) (tabId : String) : Bool :=
  doc.tabConfig.any fun p => p.1 == tabId

/-- The `getOrderForTab` helper: the order from `tabConfig`, or `9999` if missing. -/
def getOrderForTab (doc : Document) (tabId : String) : Int :=
  match doc.tabConfig.find? (fun p => p.1 == tabId) with
  | some p => p.2.order
  | none => 9999

/-- The `getConditionsForTab` helper: the conditions configured for one tab, or `[]`. -/
def getConditionsForTab (doc : Document) (tabId : String) : List DocumentCondition :=
  match doc.tabConfig.find? (fun p => p.1 == tabId) with
  | some p => p.2.conditions
  | none => []

/-- The `getAllConditions` helper: the conditions of every tab the document
participates in, pooled in tab order. -/
def getAllConditions (doc : Document) : List DocumentCondition :=
  (doc.tabConfig.map fun p => p.2.conditions).flatten

/-- All property-name groups of a condition list are satisfied: the source
groups conditions into a `Map` keyed by property name and requires every
group (`every`) to contain a matching condition (`some`). -/
def allPropertyGroupsMatch (conditions : List DocumentCondition) (properties : Bag) : Bool :=
  ((conditions.map fun c => c.property).dedup).all fun prop =>
    (conditions.filter fun c => c.property == prop).any fun c =>
      evaluateCondition c properties

/-- The `checkDocumentConditions` function: conditions on the same property combine with
OR, groups on different properties with AND; a document with no conditions
for the requested scope is trivially satisfied.  `tabId = none` pools the
conditions of every tab (the global evaluation). -/
def checkDocumentConditions (doc : Document) (properties : Bag)
    (tabId : Option String) : Bool :=
  let conditions :=
    match tabId with
    | some t => getConditionsForTab doc t
    | none => getAllConditions doc
  if conditions.isEmpty then true
  else allPropertyGroupsMatch conditions properties

/-- The per-document update performed by `fetchDocumentValues` (lines
643-701): read the persisted flags through `toBool`, evaluate the pooled
conditions, and derive the effective `required` flag. -/
def fetchUpdateDoc (doc : Document) (properties : Bag) : Document :=
  let requiredFromHubSpot := toBool (bagGet properties doc.requiredProperty)
  let provided := toBool (bagGet properties doc.providedProperty)
  let conditionsMet := checkDocumentConditions doc properties none
  let hasConditions := (getAllConditions doc).length > 0
  let required :=
    if hasConditions then
      if conditionsMet then true
      else if provided then requiredFromHubSpot
      else false
    else requiredFromHubSpot
  { doc with required := required, provided := provided }

/-- Modelled from the spec: the required-status state machine of §4.2,
expressed on the four abstract inputs (`hasConditions`, `conditionsMet`,
`provided`, and the persisted manual flag). -/
def specRequiredStatus (hasConditions conditionsMet provided manualRequired : Bool) : Bool :=
  if hasConditions then
    if conditionsMet then true
    else if provided then manualRequired
    else false
  else manualRequired

/-! ## Completion Calculator -/

def DOSSIER_STATE_TO_BUILD : String := "À construire"
def DOSSIER_STATE_INCOMPLETE : String := "En construction"
def DOSSIER_STATE_COMPLETE : String := "Complet"

/-- The `calculateDossierState` function: the three-valued aggregate state of a document
set. -/
def calculateDossierState (docs : List Document) : String :=
  let hasRequiredDocs := docs.any fun doc => doc.required
  if !hasRequiredDocs then DOSSIER_STATE_TO_BUILD
  else
    let anyProvided := docs.any fun doc => doc.provided
    if anyProvided then
      let allRequiredProvided := !(docs.any fun doc => doc.required && !doc.provided)
      if allRequiredProvided then DOSSIER_STATE_COMPLETE else DOSSIER_STATE_INCOMPLETE
    else DOSSIER_STATE_TO_BUILD

/-- Model of `Math.round` for the non-negative ratios produced by the progress
calculator: floor of the argument plus one half. -/
def jsMathRound (q : ℚ) : ℤ := ⌊q + 1 / 2⌋

structure Progress where
  provided : ℕ
  required : ℕ
  percentage : ℤ
  deriving DecidableEq, Repr

/-- The `calculateProgress` function: a document counts as required when its flag is set
or its (pooled) conditions are met; the percentage is the provided/required
ratio rounded to the nearest integer percent, and `100` when nothing is
required. -/
def calculateProgress (docs : List Document) (recordProperties : Bag) : Progress :=
  let requiredDocs := docs.filter fun doc =>
    doc.required ||
      (decide ((getAllConditions doc).length > 0) &&
        checkDocumentConditions doc recordProperties none)
  let providedDocs := requiredDocs.filter fun doc => doc.provided
  let requiredCount := requiredDocs.length
  let providedCount := providedDocs.length
  let percentage :=
    if requiredCount > 0 then
      jsMathRound ((providedCount : ℚ) / (requiredCount : ℚ) * 100)
    else 100
  { provided := providedCount, required := requiredCount, percentage := percentage }

/-! ## View Router -/

/-- A condition routes the category value `v` to a view: it must be an
`equals` condition on `sous_categorie` whose value normalizes to the
normalized category value. -/
def isCategoryMatch (v : String) (c : DocumentCondition) : Bool :=
  c.property == "sous_categorie" && c.operator == "equals" &&
    normalizeForComparison c.value == normalizeForComparison v

/-- First `some` result of `f` along a list: the for-loop with early
return used by the router. -/
def findSomeL {α β : Type} (f : α → Option β) : List α → Option β
  | [] => none
  | a :: rest =>
    match f a with
    | some b => some b
    | none => findSomeL f rest

/-- The `getTabForNatureDemande` router (primary version, operating on `tabConfig`):
scan the catalog in order and return the first tab id whose condition set
contains a matching `sous_categorie` condition; `none` when the value is
empty or nothing matches. -/
def getTabForNatureDemande (catalog : List DocumentConfig)
    (natureDemandeValue : String) : Option String :=
  if natureDemandeValue == "" then none
  else
    findSomeL (fun doc =>
      findSomeL (fun p =>
        if p.2.conditions.any (isCategoryMatch natureDemandeValue) then some p.1
        else none) doc.tabConfig) catalog

/-! The second (legacy) version of the router operates on the older document
schema, where a document carries a `tab` field (string or array) and a flat
`conditions` list. -/

inductive TabField where
  | single (s : String)
  | multi (l : List String)
  deriving DecidableEq, Repr

/-- The `getTabValue` helper: first tab of an array, or the tab itself. -/
def getTabValue : TabField → String
  | .single s => s
  | .multi l => l.headD ""

/-- The tab field as a list (`Array.isArray(doc.tab) ? doc.tab : [doc.tab]`). -/
def tabFieldList : TabField → List String
  | .single s => [s]
  | .multi l => l

structure LegacyDocument where
  id : String
  name : String
  requiredProperty : String
  providedProperty : String
  tab : TabField
  conditions : List DocumentCondition
  deriving DecidableEq, Repr

/-- The candidate documents of the legacy router: a non-empty condition
list containing a matching `sous_categorie` condition. -/
def matchingDocsLegacy (catalog : List LegacyDocument) (v : String) : List LegacyDocument :=
  catalog.filter fun doc =>
    !doc.conditions.isEmpty && doc.conditions.any (isCategoryMatch v)

/-- The legacy router's preference: a document whose `sous_categorie`
`equals` conditions number exactly one. -/
def hasSingleCategoryCondition (doc : LegacyDocument) : Bool :=
  (doc.conditions.filter fun c =>
    c.property == "sous_categorie" && c.operator == "equals").length == 1

/-- The document the legacy router routes through: the first candidate with
a single category condition, or else the first candidate. -/
def docToUseLegacy (catalog : List LegacyDocument) (v : String) : Option LegacyDocument :=
  match matchingDocsLegacy catalog v with
  | [] => none
  | d :: _ => some (((matchingDocsLegacy catalog v).find? hasSingleCategoryCondition).getD d)

/-- The `getTabForNatureDemande` router (second, legacy version): prefer a document
with a single category condition; when the chosen document belongs to
several tabs, fall back to substring heuristics on the category value
(`naturalisation` / `decret`), then to the document's first tab. -/
def getTabForNatureDemandeLegacy (catalog : List LegacyDocument)
    (natureDemandeValue : String) : Option String :=
  if natureDemandeValue == "" then none
  else
    let normalizedValue := normalizeForComparison natureDemandeValue
    match docToUseLegacy catalog natureDemandeValue with
    | none => none
    | some docToUse =>
      match docToUse.tab with
      | .multi l =>
        if l.length > 1 then
          let naturalisationDoc :=
            (matchingDocsLegacy catalog natureDemandeValue).find? fun doc =>
              (tabFieldList doc.tab).contains "naturalisation_mariage" &&
                !(tabFieldList doc.tab).contains "decret"
          if naturalisationDoc.isSome &&
              jsIncludes (jsToLower normalizedValue) "naturalisation" then
            some "naturalisation_mariage"
          else if jsIncludes (jsToLower normalizedValue) "décret" ||
              jsIncludes (jsToLower normalizedValue) "decret" then
            some "decret"
          else some (getTabValue docToUse.tab)
        else some (getTabValue docToUse.tab)
      | .single _ => some (getTabValue docToUse.tab)

/-! ## Visibility Filter -/

/-- The state `getVisibleDocuments` closes over: the static catalog, the
runtime document list, the fetched record properties, the record's
`sous_categorie` value, the selected tab, and the search box content. -/
structure ViewState where
  catalog : List DocumentConfig
  documents : List Document
  recordProperties : Bag
  natureDemande : String
  selectedTab : String
  searchTerm : String
  deriving Repr

/-- The `getActiveTabId` helper: the category-driven view, `none` when the category is
empty or routes nowhere. -/
def getActiveTabId (st : ViewState) : Option String :=
  if st.natureDemande == "" then none
  else getTabForNatureDemande st.catalog st.natureDemande

/-- The augmented property bag used for condition checks inside
`getVisibleDocuments`: `sous_categorie` is injected when missing or falsy. -/
def propsForConditions (st : ViewState) : Bag :=
  let falsy :=
    match bagGet st.recordProperties "sous_categorie" with
    | none => true
    | some v => !v.truthy
  if st.natureDemande != "" && falsy then
    bagSet st.recordProperties "sous_categorie" (.str st.natureDemande)
  else st.recordProperties

/-- Stable insertion of a document into a list sorted by an integer key
(ties keep the incoming order, as the ES2019 stable sort does). -/
def insertByKey (key : Document → Int) (d : Document) : List Document → List Document
  | [] => [d]
  | x :: xs => if key d < key x then d :: x :: xs else x :: insertByKey key d xs

/-- Stable sort by an integer key. -/
def sortByKey (key : Document → Int) : List Document → List Document
  | [] => []
  | x :: xs => insertByKey key x (sortByKey key xs)

/-- The per-document visibility predicate of `getVisibleDocuments`. -/
def visiblePredicate (st : ViewState) (activeTabId : Option String) (doc : Document) : Bool :=
  let conditionsMet := checkDocumentConditions doc (propsForConditions st) activeTabId
  if st.selectedTab == "autre" then
    if doc.required || doc.provided then
      !(conditionsMet && activeTabId.isSome &&
        documentBelongsToTab doc (activeTabId.getD ""))
    else
      match activeTabId with
      | none => false
      | some t => documentBelongsToTab doc t && !conditionsMet
  else
    let tabToCheck :=
      match activeTabId with
      | some t => if st.selectedTab == t then t else st.selectedTab
      | none => st.selectedTab
    documentBelongsToTab doc tabToCheck && (conditionsMet || (doc.required && doc.provided))

/-- The `getVisibleDocuments` function: filter by the visibility predicate, then by the
search box, then sort by the selected tab's order. -/
def getVisibleDocuments (st : ViewState) : List Document :=
  let activeTabId := getActiveTabId st
  let visible := st.documents.filter (visiblePredicate st activeTabId)
  let filtered :=
    if jsTrim st.searchTerm != "" then
      visible.filter fun doc =>
        jsIncludes (jsToLower doc.name) (jsToLower st.searchTerm)
    else visible
  sortByKey (fun doc => getOrderForTab doc st.selectedTab) filtered

/-! ## Manual toggling (`handleCheckboxToggle`) -/

inductive ToggleField where
  | required
  | provided
  deriving DecidableEq, Repr

/-- The per-document update of `handleCheckboxToggle`: toggling `provided`
always applies; toggling `required` on a document with conditions outside
the `autre` tab is forced to the condition-derived value and contradicting
directions are rejected unchanged. -/
def applyToggle (doc : Document) (field : ToggleField) (checked : Bool)
    (recordProperties : Bag) (selectedTab : String) : Document :=
  match field with
  | .required =>
    let conditionsMet := checkDocumentConditions doc recordProperties none
    let hasConditions := (getAllConditions doc).length > 0
    let isAutreTab := selectedTab == "autre"
    if hasConditions && !isAutreTab then
      if conditionsMet && !checked then doc
      else if !conditionsMet && checked then doc
      else { doc with required := conditionsMet }
    else { doc with required := checked }
  | .provided => { doc with provided := checked }

/-- State update of `handleCheckboxToggle` on the document list. -/
def handleCheckboxToggle (docs : List Document) (documentId : String)
    (field : ToggleField) (checked : Bool) (recordProperties : Bag)
    (selectedTab : String) : List Document :=
  docs.map fun doc =>
    if doc.id == documentId then applyToggle doc field checked recordProperties selectedTab
    else doc

/-! ## Reconciliation Engine (`updateDocuments.js`, second version)

The HubSpot client is modelled as an oracle mapping the index of each
successive `update` call to its outcome.  A 400 outcome carries the error
body, from which `extractFailedProperties` recovers the offending field
names (structured error list preferred, pattern-matched string fallback). -/

/-- The literal ` does not exist` that both fallback patterns require after
the quoted field name. -/
def litDNE : List Char := " does not exist".data

/-- The literal `property "` that the second fallback pattern requires
before the quoted field name. -/
def litPROP : List Char := "property \"".data

/-- Case-insensitive literal prefix test (for the `i`-flagged pattern). -/
def ciPrefixOf : List Char → List Char → Bool
  | [], _ => true
  | _ :: _, [] => false
  | a :: restA, b :: restB => a.toLower == b.toLower && ciPrefixOf restA restB

/-- Scanner for `/"([^"]+)" does not exist/g`: fuel-indexed left-to-right
scan, continuing after each whole match. -/
def scanP1Fuel : Nat → List Char → List String
  | 0, _ => []
  | _ + 1, [] => []
  | fuel + 1, c :: rest =>
    if c == '"' then
      let name := rest.takeWhile fun d => d != '"'
      match rest.dropWhile (fun d => d != '"') with
      | '"' :: after =>
        if !name.isEmpty && litDNE.isPrefixOf after then
          (⟨name⟩ : String) :: scanP1Fuel fuel (after.drop litDNE.length)
        else scanP1Fuel fuel rest
      | _ => scanP1Fuel fuel rest
    else scanP1Fuel fuel rest

/-- Scanner for `/property "([^"]+)" does not exist/gi` (literal parts
compared case-insensitively, the captured name kept verbatim). -/
def scanP2Fuel : Nat → List Char → List String
  | 0, _ => []
  | _ + 1, [] => []
  | fuel + 1, c :: rest =>
    if ciPrefixOf litPROP (c :: rest) then
      let afterLit := (c :: rest).drop litPROP.length
      let name := afterLit.takeWhile fun d => d != '"'
      match afterLit.dropWhile (fun d => d != '"') with
      | '"' :: after =>
        if !name.isEmpty && ciPrefixOf litDNE after then
          (⟨name⟩ : String) :: scanP2Fuel fuel (after.drop litDNE.length)
        else scanP2Fuel fuel rest
      | _ => scanP2Fuel fuel rest
    else scanP2Fuel fuel rest

/-- Both fallback patterns applied in order to a string error body. -/
def scanPatterns (s : String) : List String :=
  scanP1Fuel (s.data.length + 1) s.data ++ scanP2Fuel (s.data.length + 1) s.data

/-- One entry of a structured HubSpot error body: `context.propertyName`
(already flattened to a list) and an optional message. -/
structure ErrEntry where
  contextPropertyName : List String
  message : Option String
  deriving DecidableEq, Repr

/-- The body attached to a 400 response. -/
inductive ErrBody where
  | null
  | str (s : String)
  | errors (l : List ErrEntry)
  deriving DecidableEq, Repr

/-- The `extractFailedProperties` helper: structured entries contribute their
`context.propertyName` lists and pattern-matched messages; a plain string
body falls back to the patterns alone. -/
def extractFailedProperties (body : ErrBody) : List String :=
  match body with
  | .null => []
  | .str s => scanPatterns s
  | .errors l =>
    l.flatMap fun e =>
      e.contextPropertyName ++
        (match e.message with
         | some m => scanPatterns m
         | none => [])

/-- Outcome of one `update` call against the record store. -/
inductive ApiResult where
  | ok
  | notFound
  | badRequest (body : ErrBody)
  | otherError
  deriving DecidableEq, Repr

/-- Result of the serverless function: the `status` string of the response
plus the field names its failure message lists (empty otherwise). -/
structure SaveResult where
  status : String
  remainingFields : List String
  deriving DecidableEq, Repr

/-- The `while (retries > 0 && !updateSuccess)` loop of the second version:
404 is a benign no-op, a 400 whose body names fields removes them and
retries, a drained batch is a success, anything else is an error; an
exhausted budget reports an error naming the remaining fields. -/
def updateLoop (oracle : Nat → ApiResult) : Nat → Nat → List (String × String) → SaveResult
  | _, 0, properties => ⟨"error", properties.map Prod.fst⟩
  | k, retries + 1, properties =>
    match oracle k with
    | .ok => ⟨"success", []⟩
    | .notFound => ⟨"success", []⟩
    | .badRequest body =>
      let failed := extractFailedProperties body
      if failed.isEmpty then ⟨"error", []⟩
      else
        let properties2 := properties.filter fun p => !failed.contains p.1
        if properties2.isEmpty then ⟨"success", []⟩
        else updateLoop oracle (k + 1) retries properties2
    | .otherError => ⟨"error", []⟩

/-- A value of the incoming `documents` map. -/
inductive DocVal where
  | bool (b : Bool)
  | str (s : String)
  | nullv
  deriving DecidableEq, Repr

/-- The property-bag preprocessing of `exports.main`: booleans become
`"true"`/`"false"`, null/undefined/empty entries are dropped. -/
def buildProperties (documents : List (String × DocVal)) : List (String × String) :=
  documents.filterMap fun p =>
    match p.2 with
    | .bool b => some (p.1, if b then "true" else "false")
    | .nullv => none
    | .str s => if s == "" then none else some (p.1, s)

/-- Model of `exports.main` of `updateDocuments.js` (second version), from the
property-building step on (credential and id validation happen before and
are outside the claims): an empty batch is an immediate success, otherwise
the bounded retry loop runs with a budget of `2`. -/
def updateDocumentsMain (documents : List (String × DocVal))
    (oracle : Nat → ApiResult) : SaveResult :=
  let properties := buildProperties documents
  if properties.isEmpty then ⟨"success", []⟩
  else updateLoop oracle 0 2 properties

/-! ## Auxiliary lemmas about the string primitives -/

theorem dropTrailWs_cons (c : Char) (l : List Char) :
    dropTrailWs (c :: l) =
      match dropTrailWs l with
      | [] => if isWs c = true then [] else [c]
      | r => c :: r := rfl

theorem length_dropWhile_le (p : Char → Bool) (l : List Char) :
    (l.dropWhile p).length ≤ l.length :=
  (List.dropWhile_sublist p).length_le

theorem length_dropTrailWs_le (l : List Char) : (dropTrailWs l).length ≤ l.length := by
  induction l with
  | nil => simp [dropTrailWs]
  | cons c rest ih =>
    rw [dropTrailWs_cons]
    cases h : dropTrailWs rest with
    | nil =>
      by_cases hw : isWs c = true <;> simp [hw]
    | cons d t =>
      rw [h] at ih
      simpa using Nat.succ_le_succ ih

theorem dropWhile_isWs_eq_self_of_length (l : List Char)
    (h : (l.dropWhile isWs).length = l.length) : l.dropWhile isWs = l := by
  induction l with
  | nil => rfl
  | cons c rest _ =>
    by_cases hw : isWs c = true
    · exfalso
      rw [List.dropWhile_cons, if_pos hw] at h
      have := length_dropWhile_le isWs rest
      simp at h
      omega
    · rw [List.dropWhile_cons, if_neg hw]

theorem dropTrailWs_idem (l : List Char) : dropTrailWs (dropTrailWs l) = dropTrailWs l := by
  induction l with
  | nil => rfl
  | cons c rest ih =>
    rw [dropTrailWs_cons]
    cases h : dropTrailWs rest with
    | nil =>
      by_cases hw : isWs c = true
      · simp [hw, dropTrailWs]
      · simp [hw, dropTrailWs_cons, dropTrailWs]
    | cons d t =>
      rw [h] at ih
      rw [dropTrailWs_cons, ih]

theorem head?_dropTrailWs (l : List Char) :
    dropTrailWs l = [] ∨ (dropTrailWs l).head? = l.head? := by
  cases l with
  | nil => left; rfl
  | cons c rest =>
    simp only [dropTrailWs]
    cases h : dropTrailWs rest with
    | nil =>
      by_cases hw : isWs c = true
      · left; simp [hw]
      · right; simp [hw]
    | cons d t => right; simp

theorem head?_dropWhile_isWs (l : List Char) (a : Char)
    (h : (l.dropWhile isWs).head? = some a) : isWs a = false := by
  induction l with
  | nil => simp [List.dropWhile] at h
  | cons c rest ih =>
    rw [List.dropWhile_cons] at h
    by_cases hw : isWs c = true
    · rw [if_pos hw] at h; exact ih h
    · rw [if_neg hw] at h
      simp only [List.head?_cons, Option.some.injEq] at h
      subst h
      simpa using hw

theorem trimList_idem (l : List Char) : trimList (trimList l) = trimList l := by
  unfold trimList
  have hdw : (dropTrailWs ((l.dropWhile isWs))).dropWhile isWs
      = dropTrailWs (l.dropWhile isWs) := by
    rcases head?_dropTrailWs (l.dropWhile isWs) with h | h
    · rw [h]; rfl
    · cases hx : dropTrailWs (l.dropWhile isWs) with
      | nil => rfl
      | cons a t =>
        rw [hx] at h
        have ha : isWs a = false := by
          apply head?_dropWhile_isWs l
          rw [← h]; rfl
        rw [List.dropWhile_cons, if_neg (by simp [ha])]
  rw [hdw, dropTrailWs_idem]

theorem jsTrim_idem (s : String) : jsTrim (jsTrim s) = jsTrim s := by
  simp [jsTrim, trimList_idem]

theorem trimList_parts (l : List Char) (h : trimList l = l) :
    l.dropWhile isWs = l ∧ dropTrailWs l = l := by
  have h1 : (l.dropWhile isWs).length = l.length := by
    have hle1 := length_dropWhile_le isWs l
    have hle2 := length_dropTrailWs_le (l.dropWhile isWs)
    unfold trimList at h
    have := congrArg List.length h
    omega
  have hd : l.dropWhile isWs = l := dropWhile_isWs_eq_self_of_length l h1
  refine ⟨hd, ?_⟩
  unfold trimList at h
  rwa [hd] at h

/-! Split / join lemmas. -/

theorem splitList_cons (sep c : Char) (l : List Char) :
    splitList sep (c :: l) =
      if c == sep then [] :: splitList sep l
      else
        match splitList sep l with
        | [] => [[c]]
        | h :: t => (c :: h) :: t := rfl

theorem beq_false_of_contains_cons_false {sep c : Char} {rest : List Char}
    (h : (c :: rest).contains sep = false) :
    (c == sep) = false ∧ rest.contains sep = false := by
  simp only [List.contains_cons, Bool.or_eq_false_iff] at h
  refine ⟨?_, h.2⟩
  have := h.1
  exact beq_eq_false_iff_ne.mpr fun hcs => (beq_eq_false_iff_ne.mp this) hcs.symm

theorem splitList_no_sep (sep : Char) (l : List Char) (h : l.contains sep = false) :
    splitList sep l = [l] := by
  induction l with
  | nil => rfl
  | cons c rest ih =>
    obtain ⟨hc, hrest⟩ := beq_false_of_contains_cons_false h
    rw [splitList_cons, if_neg (by simp [hc]), ih hrest]

theorem splitList_append_sep (sep : Char) (l t : List Char) (h : l.contains sep = false) :
    splitList sep (l ++ sep :: t) = l :: splitList sep t := by
  induction l with
  | nil => simp [splitList_cons]
  | cons c rest ih =>
    obtain ⟨hc, hrest⟩ := beq_false_of_contains_cons_false h
    rw [List.cons_append, splitList_cons, if_neg (by simp [hc]), ih hrest]

theorem splitList_joinL (sep : Char) (xs : List (List Char))
    (h : ∀ x ∈ xs, x.contains sep = false) (hne : xs ≠ []) :
    splitList sep (joinL sep xs) = xs := by
  induction xs with
  | nil => exact absurd rfl hne
  | cons x rest ih =>
    cases rest with
    | nil => exact splitList_no_sep sep x (h x (by simp))
    | cons y t =>
      have hx : x.contains sep = false := h x (by simp)
      have hrest : ∀ z ∈ y :: t, z.contains sep = false := fun z hz => h z (by simp [hz])
      simp only [joinL, splitList_append_sep sep x _ hx, ih hrest (by simp)]

theorem mem_joinL (sep : Char) (c : Char) (xs : List (List Char)) (h : c ∈ joinL sep xs) :
    c = sep ∨ ∃ x ∈ xs, c ∈ x := by
  induction xs with
  | nil => simp [joinL] at h
  | cons x rest ih =>
    cases rest with
    | nil => right; exact ⟨x, by simp, by simpa [joinL] using h⟩
    | cons y t =>
      simp only [joinL, List.mem_append, List.mem_cons] at h
      rcases h with h | h | h
      · right; exact ⟨x, by simp, h⟩
      · left; exact h
      · rcases ih h with h' | ⟨z, hz, hc⟩
        · left; exact h'
        · right; exact ⟨z, by simp [hz], hc⟩

theorem sep_mem_joinL (sep : Char) (xs : List (List Char)) (h : 2 ≤ xs.length) :
    sep ∈ joinL sep xs := by
  match xs, h with
  | x :: y :: t, _ => simp [joinL]

theorem joinL_ne_nil_of_head_ne_nil (sep : Char) (x : List Char) (rest : List (List Char))
    (hx : x ≠ []) : joinL sep (x :: rest) ≠ [] := by
  cases rest with
  | nil => simpa [joinL] using hx
  | cons y t =>
    simp only [joinL]
    intro hcontra
    exact hx (List.append_eq_nil.mp hcontra).1

theorem dropWhile_isWs_joinL (sep : Char) (xs : List (List Char))
    (hsep : isWs sep = false) (h : ∀ x ∈ xs, x.dropWhile isWs = x) :
    (joinL sep xs).dropWhile isWs = joinL sep xs := by
  cases xs with
  | nil => rfl
  | cons x rest =>
    cases rest with
    | nil => exact h x (by simp)
    | cons y t =>
      simp only [joinL]
      cases x with
      | nil =>
        rw [List.nil_append, List.dropWhile_cons, if_neg (by simp [hsep])]
      | cons c cx =>
        have hx := h (c :: cx) (by simp)
        rw [List.dropWhile_cons] at hx
        by_cases hc : isWs c = true
        · rw [if_pos hc] at hx
          exfalso
          have hle := length_dropWhile_le isWs cx
          have := congrArg List.length hx
          simp at this
          omega
        · rw [List.cons_append, List.dropWhile_cons, if_neg hc]

theorem dropTrailWs_append_of_ne_nil (a b : List Char) (h : dropTrailWs b ≠ []) :
    dropTrailWs (a ++ b) = a ++ dropTrailWs b := by
  induction a with
  | nil => simp
  | cons c rest ih =>
    rw [List.cons_append, dropTrailWs_cons, ih]
    cases hb : rest ++ dropTrailWs b with
    | nil => exact absurd (List.append_eq_nil.mp hb).2 h
    | cons d t => simp [← hb]

theorem dropTrailWs_joinL (sep : Char) (xs : List (List Char))
    (h : ∀ x ∈ xs, dropTrailWs x = x) (hne : ∀ x ∈ xs, x ≠ []) :
    dropTrailWs (joinL sep xs) = joinL sep xs := by
  induction xs with
  | nil => rfl
  | cons x rest ih =>
    cases rest with
    | nil => exact h x (by simp)
    | cons y t =>
      have hr : dropTrailWs (joinL sep (y :: t)) = joinL sep (y :: t) :=
        ih (fun z hz => h z (by simp [hz])) (fun z hz => hne z (by simp [hz]))
      have hrne : joinL sep (y :: t) ≠ [] :=
        joinL_ne_nil_of_head_ne_nil sep y t (hne y (by simp))
      have hsr : dropTrailWs (sep :: joinL sep (y :: t)) = sep :: joinL sep (y :: t) := by
        rw [dropTrailWs_cons, hr]
        cases hj : joinL sep (y :: t) with
        | nil => exact absurd hj hrne
        | cons d u => simp
      simp only [joinL]
      rw [dropTrailWs_append_of_ne_nil x (sep :: joinL sep (y :: t)) (by rw [hsr]; simp), hsr]

/-! String-level consequences. -/

theorem string_mk_data (s : String) : (⟨s.data⟩ : String) = s := rfl

theorem string_data_ne_nil (s : String) (h : s ≠ "") : s.data ≠ [] := by
  intro hd
  exact h (by cases s with | mk d => simp at hd; simp [hd])

theorem jsTrim_eq_self_data (s : String) (h : jsTrim s = s) : trimList s.data = s.data := by
  have := congrArg String.data h
  simpa [jsTrim] using this

theorem splitOnCharStr_joinStr (sep : Char) (items : List String)
    (h : ∀ it ∈ items, it.data.contains sep = false) (hne : items ≠ []) :
    splitOnCharStr sep (joinStr sep items) = items := by
  unfold splitOnCharStr joinStr
  rw [show (⟨joinL sep (items.map String.data)⟩ : String).data
        = joinL sep (items.map String.data) from rfl]
  rw [splitList_joinL sep (items.map String.data)
    (by intro x hx
        obtain ⟨it, hit, rfl⟩ := List.mem_map.mp hx
        exact h it hit)
    (by simpa using hne)]
  rw [List.map_map]
  exact List.map_id'' (fun s => rfl) items |>.symm ▸ rfl

theorem jsTrim_joinStr (sep : Char) (items : List String) (hsep : isWs sep = false)
    (htrim : ∀ it ∈ items, jsTrim it = it) (hne : ∀ it ∈ items, it ≠ "") :
    jsTrim (joinStr sep items) = joinStr sep items := by
  unfold jsTrim joinStr trimList
  congr 1
  have hparts : ∀ x ∈ items.map String.data, x.dropWhile isWs = x ∧ dropTrailWs x = x := by
    intro x hx
    obtain ⟨it, hit, rfl⟩ := List.mem_map.mp hx
    exact trimList_parts it.data (jsTrim_eq_self_data it (htrim it hit))
  rw [show (⟨joinL sep (items.map String.data)⟩ : String).data
        = joinL sep (items.map String.data) from rfl]
  rw [dropWhile_isWs_joinL sep _ hsep (fun x hx => (hparts x hx).1)]
  exact dropTrailWs_joinL sep _ (fun x hx => (hparts x hx).2)
    (by intro x hx
        obtain ⟨it, hit, rfl⟩ := List.mem_map.mp hx
        exact string_data_ne_nil it (hne it hit))

theorem containsChar_joinStr_self (sep : Char) (items : List String)
    (h : 2 ≤ items.length) : containsChar (joinStr sep items) sep = true := by
  unfold containsChar joinStr
  have : sep ∈ joinL sep (items.map String.data) :=
    sep_mem_joinL sep (items.map String.data) (by simpa using h)
  simpa using this

theorem containsChar_joinStr_other (sepA sepB : Char) (items : List String)
    (hne : sepB ≠ sepA) (h : ∀ it ∈ items, it.data.contains sepB = false) :
    containsChar (joinStr sepA items) sepB = false := by
  unfold containsChar joinStr
  rw [show (⟨joinL sepA (items.map String.data)⟩ : String).data
        = joinL sepA (items.map String.data) from rfl]
  cases hc : (joinL sepA (items.map String.data)).contains sepB with
  | false => rfl
  | true =>
    exfalso
    have hmem : sepB ∈ joinL sepA (items.map String.data) := by
      simpa using hc
    rcases mem_joinL sepA sepB (items.map String.data) hmem with heq | ⟨x, hx, hmemx⟩
    · exact hne heq
    · obtain ⟨it, hit, rfl⟩ := List.mem_map.mp hx
      have hnotmem : sepB ∉ it.data := by simpa using h it hit
      exact hnotmem hmemx

theorem joinStr_ne_empty (sep : Char) (items : List String) (h : 2 ≤ items.length) :
    joinStr sep items ≠ "" := by
  intro hcontra
  have hc := containsChar_joinStr_self sep items h
  rw [hcontra] at hc
  simp [containsChar] at hc

/-- The `in` branch of the evaluator on a single-binding bag holding a plain
string value: the three string forms (semicolon list, comma list, whole
value) as in the source. -/
theorem evaluateCondition_in_str (cond : DocumentCondition) (s : String)
    (hop : cond.operator = "in") (hs : s ≠ "") (ht : jsTrim s = s) :
    evaluateCondition cond [(cond.property, .str s)] =
      (if containsChar s ';' then
        (((splitOnCharStr ';' s).map normalizeForComparison).filter (fun v => v != "")).any
          (fun val => val == normalizeForComparison (jsTrim cond.value))
      else if containsChar s ',' then
        (((splitOnCharStr ',' s).map normalizeForComparison).filter (fun v => v != "")).any
          (fun val => val == normalizeForComparison (jsTrim cond.value))
      else normalizeForComparison s == normalizeForComparison (jsTrim cond.value)) := by
  have hlookup : bagLookup [(cond.property, PropValue.str s)] cond.property
      = some (.str s) := by
    simp [bagLookup, bagGet]
  have hsb : (s == "") = false := by
    simpa using hs
  unfold evaluateCondition
  rw [hlookup]
  simp only [PropValue.truthy, PropValue.toStr, hsb, Option.isNone_some, hop,
    show (("in" : String) == "equals") = false from by decide,
    show (("in" : String) == "not_equals") = false from by decide,
    show (("in" : String) == "contains") = false from by decide,
    show (("in" : String) == "not_contains") = false from by decide,
    show (("in" : String) == "in") = true from by decide,
    Bool.false_eq_true, if_false, if_true, Bool.not_false, Bool.false_or, ht,
    jsTrim_idem]
  have hbne : (s != "") = true := by simpa using hs
  simp only [hbne, if_true, hsb, Bool.false_eq_true, if_false, ht]

/-- The `in` branch of the evaluator on a single-binding bag holding a
native list value: membership by trimmed equality against the trimmed
condition value. -/
theorem evaluateCondition_in_list (cond : DocumentCondition) (items : List String)
    (hop : cond.operator = "in") (hne : joinStr ',' items ≠ "")
    (ht : jsTrim (joinStr ',' items) = joinStr ',' items) :
    evaluateCondition cond [(cond.property, .list items)] =
      items.any fun val => jsTrim val == jsTrim cond.value := by
  have hlookup : bagLookup [(cond.property, PropValue.list items)] cond.property
      = some (.list items) := by
    simp [bagLookup, bagGet]
  have hsb : (joinStr ',' items == "") = false := by
    simpa using hne
  unfold evaluateCondition
  rw [hlookup]
  simp only [PropValue.truthy, PropValue.toStr, hop,
    show (("in" : String) == "equals") = false from by decide,
    show (("in" : String) == "not_equals") = false from by decide,
    show (("in" : String) == "contains") = false from by decide,
    show (("in" : String) == "not_contains") = false from by decide,
    show (("in" : String) == "in") = true from by decide,
    Bool.false_eq_true, if_false, if_true, Option.isNone_some, Bool.false_or, ht,
    hsb, jsTrim_idem]

theorem any_congr_mem {α : Type} (l : List α) (p q : α → Bool)
    (h : ∀ a ∈ l, p a = q a) : l.any p = l.any q := by
  induction l with
  | nil => rfl
  | cons a rest ih =>
    simp only [List.any_cons, h a (by simp), ih fun b hb => h b (by simp [hb])]

/-- Claim C6, counterexample: for equal trimmed-and-collapsed item sets
{"x", "a b"}, the semicolon and comma string representations of the bag
value match the condition value `"a b"`, but the native-list representation
does not (list membership is checked by trimmed equality only, without
collapsing internal whitespace), so membership is not invariant across all
three representations. -/
theorem in_representation_counterexample :
    evaluateCondition ⟨"p", "in", "a b"⟩ [("p", .list ["x", "a  b"])] = false ∧
    evaluateCondition ⟨"p", "in", "a b"⟩ [("p", .str "x;a  b")] = true ∧
    evaluateCondition ⟨"p", "in", "a b"⟩ [("p", .str "x,a  b")] = true :=
  ⟨by decide, by decide, by decide⟩

/-- Claim C6, amended: for every condition with operator `in`, an absent or empty
bag value yields false, and membership is invariant between the
`;`-separated and `,`-separated string representations of the same
(non-empty, trimmed, separator-free) item list; the native-list
representation additionally agrees when the items and the trimmed condition
value contain no internal whitespace runs (they are invariant under
whitespace collapsing). -/
theorem in_representation_amended (cond : DocumentCondition) (bag : Bag)
    (items : List String) (hop : cond.operator = "in") :
    (bagLookup bag cond.property = none → evaluateCondition cond bag = false) ∧
    (bagLookup bag cond.property = some (.str "") → evaluateCondition cond bag = false) ∧
    (2 ≤ items.length →
      (∀ it ∈ items, it ≠ "" ∧ jsTrim it = it ∧
        it.data.contains ';' = false ∧ it.data.contains ',' = false) →
      evaluateCondition cond [(cond.property, .str (joinStr ';' items))] =
        evaluateCondition cond [(cond.property, .str (joinStr ',' items))]) ∧
    (2 ≤ items.length →
      (∀ it ∈ items, it ≠ "" ∧ jsTrim it = it ∧ collapseWs it = it ∧
        it.data.contains ';' = false ∧ it.data.contains ',' = false) →
      collapseWs (jsTrim cond.value) = jsTrim cond.value →
      evaluateCondition cond [(cond.property, .list items)] =
        evaluateCondition cond [(cond.property, .str (joinStr ';' items))]) := by
  refine ⟨?_, ?_, ?_, ?_⟩
  · intro habs
    unfold evaluateCondition
    rw [habs]
    simp [hop]
  · intro habs
    unfold evaluateCondition
    rw [habs]
    simp [hop, PropValue.truthy]
  · intro h2 hitems
    have hnil : items ≠ [] := by
      intro hcontra
      rw [hcontra] at h2
      simp at h2
    have htr1 : jsTrim (joinStr ';' items) = joinStr ';' items :=
      jsTrim_joinStr ';' items (by decide) (fun it hit => (hitems it hit).2.1)
        (fun it hit => (hitems it hit).1)
    have htr2 : jsTrim (joinStr ',' items) = joinStr ',' items :=
      jsTrim_joinStr ',' items (by decide) (fun it hit => (hitems it hit).2.1)
        (fun it hit => (hitems it hit).1)
    rw [evaluateCondition_in_str cond _ hop (joinStr_ne_empty ';' items h2) htr1,
      evaluateCondition_in_str cond _ hop (joinStr_ne_empty ',' items h2) htr2]
    rw [if_pos (containsChar_joinStr_self ';' items h2)]
    rw [if_neg (by
      rw [containsChar_joinStr_other ',' ';' items (by decide)
        (fun it hit => (hitems it hit).2.2.1)]
      simp)]
    rw [if_pos (containsChar_joinStr_self ',' items h2)]
    rw [splitOnCharStr_joinStr ';' items (fun it hit => (hitems it hit).2.2.1) hnil,
      splitOnCharStr_joinStr ',' items (fun it hit => (hitems it hit).2.2.2) hnil]
  · intro h2 hitems hcv
    have hnil : items ≠ [] := by
      intro hcontra
      rw [hcontra] at h2
      simp at h2
    have htr1 : jsTrim (joinStr ';' items) = joinStr ';' items :=
      jsTrim_joinStr ';' items (by decide) (fun it hit => (hitems it hit).2.1)
        (fun it hit => (hitems it hit).1)
    have htr2 : jsTrim (joinStr ',' items) = joinStr ',' items :=
      jsTrim_joinStr ',' items (by decide) (fun it hit => (hitems it hit).2.1)
        (fun it hit => (hitems it hit).1)
    rw [evaluateCondition_in_list cond items hop (joinStr_ne_empty ',' items h2) htr2]
    rw [evaluateCondition_in_str cond _ hop (joinStr_ne_empty ';' items h2) htr1]
    rw [if_pos (containsChar_joinStr_self ';' items h2)]
    rw [splitOnCharStr_joinStr ';' items (fun it hit => (hitems it hit).2.2.2.1) hnil]
    have hnorm : ∀ it ∈ items, normalizeForComparison it = it := by
      intro it hit
      unfold normalizeForComparison
      rw [(hitems it hit).2.1, (hitems it hit).2.2.1]
    have hnormv : normalizeForComparison (jsTrim cond.value) = jsTrim cond.value := by
      unfold normalizeForComparison
      rw [jsTrim_idem, hcv]
    rw [List.map_congr_left hnorm, List.map_id', hnormv]
    rw [List.filter_eq_self.mpr (fun a ha => by simpa using (hitems a ha).1)]
    exact any_congr_mem items _ _ fun a ha => by rw [(hitems a ha).2.1]

/-- Claim C6, witness: the amended invariance at the concrete items
`["a", "b"]` and condition value `"x"`, and the absent-value clause on the
empty bag. -/
theorem in_representation_amended_witness :
    evaluateCondition ⟨"p", "in", "x"⟩ [("p", .str (joinStr ';' ["a", "b"]))] =
      evaluateCondition ⟨"p", "in", "x"⟩ [("p", .str (joinStr ',' ["a", "b"]))] ∧
    evaluateCondition ⟨"p", "in", "x"⟩ [] = false :=
  ⟨(in_representation_amended ⟨"p", "in", "x"⟩ [] ["a", "b"] rfl).2.2.1 (by decide)
      (by decide),
    (in_representation_amended ⟨"p", "in", "x"⟩ [] ["a", "b"] rfl).1 rfl⟩

/-- Claim C9: for every condition whose operator is none of `equals`,
`not_equals`, `contains`, `not_contains`, `in`, the evaluator returns true
(the permissive default of the `switch`), for every property bag. -/
theorem evaluateCondition_unknown_operator (cond : DocumentCondition) (bag : Bag)
    (h : cond.operator ∉
      (["equals", "not_equals", "contains", "not_contains", "in"] : List String)) :
    evaluateCondition cond bag = true := by
  simp only [List.mem_cons, List.mem_singleton, not_or] at h
  obtain ⟨h1, h2, h3, h4, h5, -⟩ := h
  unfold evaluateCondition
  rw [if_neg (by simpa using h1), if_neg (by simpa using h2),
    if_neg (by simpa using h3), if_neg (by simpa using h4),
    if_neg (by simpa using h5)]

/-- Claim C9, witness: an operator outside the recognised five evaluates to true
on the empty bag. -/
theorem evaluateCondition_unknown_operator_witness :
    evaluateCondition ⟨"p", "matches", "v"⟩ [] = true :=
  evaluateCondition_unknown_operator ⟨"p", "matches", "v"⟩ [] (by decide)

/-- Claim C10: when the condition's property is absent from the bag even after the
case-insensitive key fallback, the evaluator compares against the empty
string: `equals` holds iff the trimmed condition value is empty, and
`not_equals` holds iff the trimmed condition value is non-empty. -/
theorem evaluateCondition_absent_property (cond : DocumentCondition) (bag : Bag)
    (habs : bagLookup bag cond.property = none) :
    (cond.operator = "equals" →
      (evaluateCondition cond bag = true ↔ jsTrim cond.value = "")) ∧
    (cond.operator = "not_equals" →
      (evaluateCondition cond bag = true ↔ jsTrim cond.value ≠ "")) := by
  constructor
  · intro hop
    unfold evaluateCondition
    rw [habs]
    simp only [hop, show (("equals" : String) == "equals") = true from by decide,
      if_true, beq_iff_eq]
    exact eq_comm
  · intro hop
    unfold evaluateCondition
    rw [habs]
    simp only [hop, show (("not_equals" : String) == "equals") = false from by decide,
      show (("not_equals" : String) == "not_equals") = true from by decide,
      Bool.false_eq_true, if_false, if_true, bne_iff_ne]
    exact ne_comm

/-- Claim C10, witness: on the empty bag, an `equals` condition with empty value
is satisfied and a `not_equals` condition with value `"x"` is satisfied. -/
theorem evaluateCondition_absent_property_witness :
    (evaluateCondition ⟨"p", "equals", ""⟩ [] = true ↔ jsTrim "" = "") ∧
    (evaluateCondition ⟨"p", "not_equals", "x"⟩ [] = true ↔ jsTrim "x" ≠ "") :=
  ⟨(evaluateCondition_absent_property ⟨"p", "equals", ""⟩ [] rfl).1 rfl,
    (evaluateCondition_absent_property ⟨"p", "not_equals", "x"⟩ [] rfl).2 rfl⟩

/-- Claim C1: the required status derived at fetch time follows the spec's state
machine: conditions met force `required = true`; conditions present but
unmet keep the persisted manual flag when provided and collapse to false
otherwise; no conditions at all leave the manual flag untouched.  The
`provided` flag is read straight from the bag. -/
theorem fetchUpdateDoc_spec (doc : Document) (properties : Bag) :
    (fetchUpdateDoc doc properties).required =
      specRequiredStatus (decide (0 < (getAllConditions doc).length))
        (checkDocumentConditions doc properties none)
        (toBool (bagGet properties doc.providedProperty))
        (toBool (bagGet properties doc.requiredProperty)) ∧
    (fetchUpdateDoc doc properties).provided =
      toBool (bagGet properties doc.providedProperty) := by
  unfold fetchUpdateDoc specRequiredStatus
  constructor
  · by_cases hc : (0 : ℕ) < (getAllConditions doc).length <;>
      by_cases hm : checkDocumentConditions doc properties none = true <;>
        by_cases hp : toBool (bagGet properties doc.providedProperty) = true <;>
          simp_all
  · rfl

theorem checkConds_iff (conds : List DocumentCondition) (bag : Bag) :
    (if conds.isEmpty then true else allPropertyGroupsMatch conds bag) = true ↔
      ∀ p ∈ conds.map DocumentCondition.property,
        ∃ c ∈ conds, c.property = p ∧ evaluateCondition c bag = true := by
  cases conds with
  | nil => simp
  | cons c0 rest =>
    rw [if_neg (by simp)]
    unfold allPropertyGroupsMatch
    rw [List.all_eq_true]
    constructor
    · intro h p hp
      have hpd : p ∈ ((c0 :: rest).map DocumentCondition.property).dedup :=
        List.mem_dedup.mpr hp
      have hany := h p hpd
      rw [List.any_eq_true] at hany
      obtain ⟨c, hc, hev⟩ := hany
      rw [List.mem_filter] at hc
      exact ⟨c, hc.1, by simpa using hc.2, hev⟩
    · intro h p hpd
      have hp : p ∈ (c0 :: rest).map DocumentCondition.property := List.mem_dedup.mp hpd
      obtain ⟨c, hc, hprop, hev⟩ := h p hp
      rw [List.any_eq_true]
      exact ⟨c, List.mem_filter.mpr ⟨hc, by simpa using hprop⟩, hev⟩

/-- Claim C5: the conditions-met result groups a document's conditions by property
name and holds iff every property group has at least one matching condition
(AND of ORs); it is trivially true with zero conditions for the requested
view, and the global evaluation (no view pinned) runs over the pooled
conditions of every view the document participates in. -/
theorem checkDocumentConditions_spec (doc : Document) (properties : Bag) (t : String) :
    (getConditionsForTab doc t = [] →
      checkDocumentConditions doc properties (some t) = true) ∧
    (checkDocumentConditions doc properties (some t) = true ↔
      ∀ p ∈ (getConditionsForTab doc t).map DocumentCondition.property,
        ∃ c ∈ getConditionsForTab doc t,
          c.property = p ∧ evaluateCondition c properties = true) ∧
    (checkDocumentConditions doc properties none = true ↔
      ∀ p ∈ ((doc.tabConfig.map fun q => q.2.conditions).flatten).map
          DocumentCondition.property,
        ∃ c ∈ (doc.tabConfig.map fun q => q.2.conditions).flatten,
          c.property = p ∧ evaluateCondition c properties = true) := by
  refine ⟨?_, ?_, ?_⟩
  · intro h
    show (if (getConditionsForTab doc t).isEmpty = true then true
        else allPropertyGroupsMatch (getConditionsForTab doc t) properties) = true
    rw [h]
    rfl
  · exact checkConds_iff (getConditionsForTab doc t) properties
  · exact checkConds_iff ((doc.tabConfig.map fun q => q.2.conditions).flatten) properties

/-- Claim C5, witness: a document with no conditions for the view is trivially
satisfied, and the grouped characterisation holds at a concrete document. -/
theorem checkDocumentConditions_spec_witness :
    checkDocumentConditions ⟨"d", "D", false, false, "r", "p", []⟩ [] (some "decret")
      = true :=
  (checkDocumentConditions_spec ⟨"d", "D", false, false, "r", "p", []⟩ [] "decret").1 rfl

/-- Claim C8: toggling `required` is a no-op whenever the document has conditions
and the toggle direction contradicts the condition-derived value, except in
the overflow (`autre`) view where manual control is always applied; with no
conditions the toggle is applied; toggling `provided` is always applied. -/
theorem applyToggle_spec (doc : Document) (bag : Bag) (tab : String) (checked : Bool) :
    (0 < (getAllConditions doc).length → tab ≠ "autre" →
      checked ≠ checkDocumentConditions doc bag none →
      applyToggle doc .required checked bag tab = doc) ∧
    (tab = "autre" →
      applyToggle doc .required checked bag tab = { doc with required := checked }) ∧
    ((getAllConditions doc).length = 0 →
      applyToggle doc .required checked bag tab = { doc with required := checked }) ∧
    applyToggle doc .provided checked bag tab = { doc with provided := checked } := by
  refine ⟨?_, ?_, ?_, rfl⟩
  · intro hc htab hne
    unfold applyToggle
    cases hm : checkDocumentConditions doc bag none <;> cases hch : checked <;>
      simp_all [hc]
  · intro htab
    subst htab
    unfold applyToggle
    simp
  · intro hc
    unfold applyToggle
    simp [hc]

/-- Claim C8, witness: at a concrete conditioned document on an empty bag, a
contradicting `required` toggle outside `autre` is rejected, the same toggle
inside `autre` is applied, and a `provided` toggle is applied. -/
theorem applyToggle_spec_witness :
    applyToggle ⟨"d", "D", false, false, "r", "p",
        [("decret", ⟨1, [⟨"sous_categorie", "equals", "X"⟩]⟩)]⟩
      .required true [] "decret"
      = ⟨"d", "D", false, false, "r", "p",
        [("decret", ⟨1, [⟨"sous_categorie", "equals", "X"⟩]⟩)]⟩ ∧
    applyToggle ⟨"d", "D", false, false, "r", "p",
        [("decret", ⟨1, [⟨"sous_categorie", "equals", "X"⟩]⟩)]⟩
      .required true [] "autre"
      = ⟨"d", "D", true, false, "r", "p",
        [("decret", ⟨1, [⟨"sous_categorie", "equals", "X"⟩]⟩)]⟩ ∧
    applyToggle ⟨"d", "D", false, false, "r", "p",
        [("decret", ⟨1, [⟨"sous_categorie", "equals", "X"⟩]⟩)]⟩
      .provided true [] "decret"
      = ⟨"d", "D", false, true, "r", "p",
        [("decret", ⟨1, [⟨"sous_categorie", "equals", "X"⟩]⟩)]⟩ :=
  ⟨(applyToggle_spec _ [] "decret" true).1 (by decide) (by decide) (by decide),
    (applyToggle_spec _ [] "autre" true).2.1 rfl,
    (applyToggle_spec _ [] "decret" true).2.2.2⟩

theorem jsMathRound_close (q : ℚ) : |((jsMathRound q : ℤ) : ℚ) - q| ≤ 1 / 2 := by
  unfold jsMathRound
  have h1 : ((⌊q + 1 / 2⌋ : ℤ) : ℚ) ≤ q + 1 / 2 := Int.floor_le (q + 1 / 2)
  have h2 : q + 1 / 2 < ((⌊q + 1 / 2⌋ : ℤ) : ℚ) + 1 := Int.lt_floor_add_one (q + 1 / 2)
  rw [abs_le]
  constructor <;> linarith

theorem calculateDossierState_cases (docs : List Document) :
    calculateDossierState docs =
      if docs.any (fun d => d.required) = false then DOSSIER_STATE_TO_BUILD
      else if docs.any (fun d => d.provided) = true then
        (if docs.any (fun d => d.required && !d.provided) = true then
          DOSSIER_STATE_INCOMPLETE
        else DOSSIER_STATE_COMPLETE)
      else DOSSIER_STATE_TO_BUILD := by
  unfold calculateDossierState
  cases docs.any (fun d => d.required) <;> cases docs.any (fun d => d.provided) <;>
    cases docs.any (fun d => d.required && !d.provided) <;> rfl

theorem any_required_false_iff (docs : List Document) :
    docs.any (fun d => d.required) = false ↔ ∀ d ∈ docs, d.required = false := by
  rw [List.any_eq_false]
  simp

theorem any_provided_false_iff (docs : List Document) :
    docs.any (fun d => d.provided) = false ↔ ∀ d ∈ docs, d.provided = false := by
  rw [List.any_eq_false]
  simp

/-- Claim C2: the dossier state is `TO_BUILD` exactly when no document is required
or none is provided; `COMPLETE` exactly when some document is required, some
document is provided, and every required document is provided; `INCOMPLETE`
exactly when some document is provided and some required document is not.
The progress percentage is the provided-over-required ratio rounded to the
nearest integer percent, and `100` when the required count is zero. -/
theorem calculateDossierState_progress_spec (docs : List Document) (bag : Bag) :
    (calculateDossierState docs = DOSSIER_STATE_TO_BUILD ↔
      (∀ d ∈ docs, d.required = false) ∨ (∀ d ∈ docs, d.provided = false)) ∧
    (calculateDossierState docs = DOSSIER_STATE_COMPLETE ↔
      (∃ d ∈ docs, d.required = true) ∧ (∃ d ∈ docs, d.provided = true) ∧
        ∀ d ∈ docs, d.required = true → d.provided = true) ∧
    (calculateDossierState docs = DOSSIER_STATE_INCOMPLETE ↔
      (∃ d ∈ docs, d.provided = true) ∧
        ∃ d ∈ docs, d.required = true ∧ d.provided = false) ∧
    ((calculateProgress docs bag).required = 0 →
      (calculateProgress docs bag).percentage = 100) ∧
    ((calculateProgress docs bag).required ≠ 0 →
      |(((calculateProgress docs bag).percentage : ℤ) : ℚ) -
          ((calculateProgress docs bag).provided : ℚ) /
            ((calculateProgress docs bag).required : ℚ) * 100| ≤ 1 / 2) ∧
    (calculateProgress docs bag).provided ≤ (calculateProgress docs bag).required := by
  rw [calculateDossierState_cases]
  refine ⟨?_, ?_, ?_, ?_, ?_, ?_⟩
  · cases hr : docs.any (fun d => d.required) with
    | false =>
      rw [if_pos rfl]
      simp only [eq_self_iff_true, true_iff]
      exact Or.inl ((any_required_false_iff docs).mp hr)
    | true =>
      rw [if_neg (by simp)]
      cases hp : docs.any (fun d => d.provided) with
      | false =>
        rw [if_neg (by simp)]
        simp only [eq_self_iff_true, true_iff]
        exact Or.inr ((any_provided_false_iff docs).mp hp)
      | true =>
        rw [if_pos rfl]
        constructor
        · intro h
          cases hq : docs.any (fun d => d.required && !d.provided) with
          | false => rw [if_neg (by simp [hq])] at h; exact absurd h (by decide)
          | true => rw [if_pos hq] at h; exact absurd h (by decide)
        · rintro (h | h)
          · rw [← any_required_false_iff docs] at h
            rw [h] at hr
            simp at hr
          · rw [← any_provided_false_iff docs] at h
            rw [h] at hp
            simp at hp
  · cases hr : docs.any (fun d => d.required) with
    | false =>
      rw [if_pos rfl]
      constructor
      · intro h; exact absurd h (by decide)
      · rintro ⟨⟨d, hd, hdr⟩, -, -⟩
        have := (any_required_false_iff docs).mp hr d hd
        rw [this] at hdr
        simp at hdr
    | true =>
      rw [if_neg (by simp)]
      obtain ⟨d0, hd0, hd0r⟩ : ∃ d ∈ docs, d.required = true := by
        rw [List.any_eq_true] at hr
        simpa using hr
      cases hp : docs.any (fun d => d.provided) with
      | false =>
        rw [if_neg (by simp)]
        constructor
        · intro h; exact absurd h (by decide)
        · rintro ⟨-, ⟨d, hd, hdp⟩, -⟩
          have := (any_provided_false_iff docs).mp hp d hd
          rw [this] at hdp
          simp at hdp
      | true =>
        rw [if_pos rfl]
        obtain ⟨d1, hd1, hd1p⟩ : ∃ d ∈ docs, d.provided = true := by
          rw [List.any_eq_true] at hp
          simpa using hp
        cases hq : docs.any (fun d => d.required && !d.provided) with
        | false =>
          rw [if_neg (by simp)]
          simp only [eq_self_iff_true, true_iff]
          rw [List.any_eq_false] at hq
          refine ⟨⟨d0, hd0, hd0r⟩, ⟨d1, hd1, hd1p⟩, ?_⟩
          intro d hd hdr
          have := hq d hd
          simpa [hdr] using this
        | true =>
          rw [if_pos rfl]
          constructor
          · intro h; exact absurd h (by decide)
          · rintro ⟨-, -, hall⟩
            rw [List.any_eq_true] at hq
            obtain ⟨d2, hd2, hd2q⟩ := hq
            rw [Bool.and_eq_true, Bool.not_eq_true'] at hd2q
            have := hall d2 hd2 hd2q.1
            rw [this] at hd2q
            simp at hd2q
  · cases hr : docs.any (fun d => d.required) with
    | false =>
      rw [if_pos rfl]
      constructor
      · intro h; exact absurd h (by decide)
      · rintro ⟨-, ⟨d, hd, hdr, -⟩⟩
        have := (any_required_false_iff docs).mp hr d hd
        rw [this] at hdr
        simp at hdr
    | true =>
      rw [if_neg (by simp)]
      cases hp : docs.any (fun d => d.provided) with
      | false =>
        rw [if_neg (by simp)]
        constructor
        · intro h; exact absurd h (by decide)
        · rintro ⟨⟨d, hd, hdp⟩, -⟩
          have := (any_provided_false_iff docs).mp hp d hd
          rw [this] at hdp
          simp at hdp
      | true =>
        rw [if_pos rfl]
        obtain ⟨d1, hd1, hd1p⟩ : ∃ d ∈ docs, d.provided = true := by
          rw [List.any_eq_true] at hp
          simpa using hp
        cases hq : docs.any (fun d => d.required && !d.provided) with
        | false =>
          rw [if_neg (by simp)]
          constructor
          · intro h; exact absurd h (by decide)
          · rintro ⟨-, ⟨d, hd, hdr, hdp⟩⟩
            rw [List.any_eq_false] at hq
            have := hq d hd
            simp [hdr, hdp] at this
        | true =>
          rw [if_pos rfl]
          simp only [eq_self_iff_true, true_iff]
          rw [List.any_eq_true] at hq
          obtain ⟨d2, hd2, hd2q⟩ := hq
          rw [Bool.and_eq_true, Bool.not_eq_true'] at hd2q
          exact ⟨⟨d1, hd1, hd1p⟩, d2, hd2, hd2q.1, hd2q.2⟩
  · intro h
    unfold calculateProgress at h ⊢
    simp only at h ⊢
    rw [h]
    rfl
  · intro h
    unfold calculateProgress at h ⊢
    simp only at h ⊢
    rw [if_pos (Nat.pos_of_ne_zero h)]
    exact jsMathRound_close _
  · unfold calculateProgress
    simp only
    exact List.length_filter_le _ _

/-- Claim C2, witness: an empty document set is `TO_BUILD` with percentage 100; a
single required-and-provided document is `COMPLETE`; the rounding bound at a
concrete 1-of-2 progress. -/
theorem calculateDossierState_progress_spec_witness :
    (calculateDossierState [] = DOSSIER_STATE_TO_BUILD) ∧
    (calculateDossierState [⟨"d", "D", true, true, "r", "p", []⟩]
      = DOSSIER_STATE_COMPLETE) ∧
    (calculateProgress [] []).percentage = 100 ∧
    |(((calculateProgress [⟨"d", "D", true, true, "r", "p", []⟩,
          ⟨"e", "E", true, false, "r2", "p2", []⟩] []).percentage : ℤ) : ℚ) -
        ((calculateProgress [⟨"d", "D", true, true, "r", "p", []⟩,
            ⟨"e", "E", true, false, "r2", "p2", []⟩] []).provided : ℚ) /
          ((calculateProgress [⟨"d", "D", true, true, "r", "p", []⟩,
              ⟨"e", "E", true, false, "r2", "p2", []⟩] []).required : ℚ) * 100|
      ≤ 1 / 2 :=
  ⟨(calculateDossierState_progress_spec [] []).1.mpr (Or.inl (by simp)),
    (calculateDossierState_progress_spec [⟨"d", "D", true, true, "r", "p", []⟩] []).2.1.mpr
      (by
        refine ⟨⟨⟨"d", "D", true, true, "r", "p", []⟩, by simp, rfl⟩,
          ⟨⟨"d", "D", true, true, "r", "p", []⟩, by simp, rfl⟩, ?_⟩
        intro d hd hdr
        simp only [List.mem_singleton] at hd
        simp [hd]),
    (calculateDossierState_progress_spec [] []).2.2.2.1 (by decide),
    (calculateDossierState_progress_spec
      [⟨"d", "D", true, true, "r", "p", []⟩, ⟨"e", "E", true, false, "r2", "p2", []⟩]
      []).2.2.2.2.1 (by decide)⟩

theorem mem_insertByKey (key : Document → Int) (d x : Document) (l : List Document) :
    x ∈ insertByKey key d l ↔ x = d ∨ x ∈ l := by
  induction l with
  | nil => simp [insertByKey]
  | cons a rest ih =>
    unfold insertByKey
    by_cases h : key d < key a
    · rw [if_pos h]
      simp
    · rw [if_neg h]
      simp only [List.mem_cons, ih]
      tauto

theorem mem_sortByKey (key : Document → Int) (x : Document) (l : List Document) :
    x ∈ sortByKey key l ↔ x ∈ l := by
  induction l with
  | nil => simp [sortByKey]
  | cons a rest ih =>
    unfold sortByKey
    rw [mem_insertByKey, ih]
    simp

/-- The active view a record routes to, as a proposition about a document:
the document belongs to that view. -/
def belongsToActive (st : ViewState) (doc : Document) : Prop :=
  match getActiveTabId st with
  | some t => documentBelongsToTab doc t = true
  | none => False

/-- The document's conditions hold in the active view (false when there is
no active view). -/
def activeConditionsMet (st : ViewState) (doc : Document) : Prop :=
  match getActiveTabId st with
  | some t => checkDocumentConditions doc (propsForConditions st) (some t) = true
  | none => False

/-- Claim C3: with an empty search box, the active view shows exactly the
documents that belong to it and whose conditions are met there, or that are
both required and provided (so completed items survive a trigger change);
the overflow (`autre`) view shows exactly the documents flagged required or
provided that are not simultaneously claimed by the active view with met
conditions, plus the documents belonging to the active view whose conditions
are currently unmet. -/
theorem getVisibleDocuments_spec (st : ViewState) (doc : Document) (t : String)
    (hsearch : st.searchTerm = "") :
    (st.selectedTab = t → t ≠ "autre" → getActiveTabId st = some t →
      (doc ∈ getVisibleDocuments st ↔
        doc ∈ st.documents ∧ documentBelongsToTab doc t = true ∧
          (checkDocumentConditions doc (propsForConditions st) (some t) = true ∨
            (doc.required = true ∧ doc.provided = true)))) ∧
    (st.selectedTab = "autre" →
      (doc ∈ getVisibleDocuments st ↔
        doc ∈ st.documents ∧
          (((doc.required = true ∨ doc.provided = true) ∧
              ¬(belongsToActive st doc ∧ activeConditionsMet st doc)) ∨
            (belongsToActive st doc ∧ ¬activeConditionsMet st doc)))) := by
  have hsearchb : (jsTrim st.searchTerm != "") = false := by
    rw [hsearch]
    decide
  have hmem : ∀ p : Document → Bool,
      (doc ∈ sortByKey (fun d => getOrderForTab d st.selectedTab)
          (if (jsTrim st.searchTerm != "") = true then
            (st.documents.filter p).filter fun d =>
              jsIncludes (jsToLower d.name) (jsToLower st.searchTerm)
          else st.documents.filter p) ↔
        doc ∈ st.documents ∧ p doc = true) := by
    intro p
    rw [hsearchb]
    simp only [Bool.false_eq_true, if_false, mem_sortByKey, List.mem_filter]
  constructor
  · intro hsel hne hact
    unfold getVisibleDocuments
    rw [hmem]
    unfold visiblePredicate
    rw [hact, hsel]
    have htb : (t == "autre") = false := by
      simpa using hne
    rw [htb]
    simp only [Bool.false_eq_true, if_false, if_pos (beq_self_eq_true t)]
    cases hb : documentBelongsToTab doc t <;>
      cases hm : checkDocumentConditions doc (propsForConditions st) (some t) <;>
        cases hr : doc.required <;> cases hp : doc.provided <;> simp_all
  · intro hsel
    unfold getVisibleDocuments
    rw [hmem]
    unfold visiblePredicate
    rw [hsel]
    unfold belongsToActive activeConditionsMet
    cases hact : getActiveTabId st with
    | none =>
      simp only [show (("autre" : String) == "autre") = true from by decide, if_true]
      cases hr : doc.required <;> cases hp : doc.provided <;> simp_all
    | some u =>
      simp only [show (("autre" : String) == "autre") = true from by decide, if_true,
        Option.isSome_some, Option.getD_some]
      cases hb : documentBelongsToTab doc u <;>
        cases hm : checkDocumentConditions doc (propsForConditions st) (some u) <;>
          cases hr : doc.required <;> cases hp : doc.provided <;> simp_all

/-- Claim C3, witness: at a concrete catalog routing `"Tronc"` to the `decret`
view, a conditioned document is visible in the active view, and a
required-but-unmatched document is visible in the overflow view. -/
theorem getVisibleDocuments_spec_witness :
    (⟨"d1", "Doc 1", false, false, "d1_required", "d1_provided",
        [("decret", ⟨1, [⟨"sous_categorie", "equals", "Tronc"⟩]⟩)]⟩ : Document) ∈
      getVisibleDocuments
        ⟨[⟨"d1", "Doc 1", "d1_required", "d1_provided",
            [("decret", ⟨1, [⟨"sous_categorie", "equals", "Tronc"⟩]⟩)]⟩],
          [⟨"d1", "Doc 1", false, false, "d1_required", "d1_provided",
            [("decret", ⟨1, [⟨"sous_categorie", "equals", "Tronc"⟩]⟩)]⟩],
          [], "Tronc", "decret", ""⟩ ∧
    (⟨"d2", "Doc 2", true, false, "r2", "p2",
        [("decret", ⟨2, [⟨"sous_categorie", "equals", "X"⟩]⟩)]⟩ : Document) ∈
      getVisibleDocuments
        ⟨[⟨"d1", "Doc 1", "d1_required", "d1_provided",
            [("decret", ⟨1, [⟨"sous_categorie", "equals", "Tronc"⟩]⟩)]⟩],
          [⟨"d2", "Doc 2", true, false, "r2", "p2",
            [("decret", ⟨2, [⟨"sous_categorie", "equals", "X"⟩]⟩)]⟩],
          [], "Tronc", "autre", ""⟩ := by
  constructor
  · exact ((getVisibleDocuments_spec _ _ "decret" rfl).1 rfl (by decide)
      (by decide)).mpr ⟨by decide, by decide, Or.inl (by decide)⟩
  · refine ((getVisibleDocuments_spec _ _ "autre" rfl).2 rfl).mpr
      ⟨by decide, Or.inl ⟨Or.inl rfl, ?_⟩⟩
    intro hc
    exact absurd
      (show checkDocumentConditions
          ⟨"d2", "Doc 2", true, false, "r2", "p2",
            [("decret", ⟨2, [⟨"sous_categorie", "equals", "X"⟩]⟩)]⟩
          (propsForConditions
            ⟨[⟨"d1", "Doc 1", "d1_required", "d1_provided",
                [("decret", ⟨1, [⟨"sous_categorie", "equals", "Tronc"⟩]⟩)]⟩],
              [⟨"d2", "Doc 2", true, false, "r2", "p2",
                [("decret", ⟨2, [⟨"sous_categorie", "equals", "X"⟩]⟩)]⟩],
              [], "Tronc", "autre", ""⟩)
          (some "decret") = true from hc.2)
      (by decide)

theorem findSomeL_eq_none_iff {α β : Type} (f : α → Option β) (l : List α) :
    findSomeL f l = none ↔ ∀ a ∈ l, f a = none := by
  induction l with
  | nil => simp [findSomeL]
  | cons a rest ih =>
    unfold findSomeL
    cases hfa : f a with
    | some b => simp [hfa]
    | none => simpa [hfa] using ih

theorem findSomeL_eq_some {α β : Type} (f : α → Option β) (l : List α) (b : β)
    (h : findSomeL f l = some b) : ∃ a ∈ l, f a = some b := by
  induction l with
  | nil => simp [findSomeL] at h
  | cons a rest ih =>
    unfold findSomeL at h
    cases hfa : f a with
    | some c =>
      rw [hfa] at h
      exact ⟨a, by simp, by rw [hfa]; exact h⟩
    | none =>
      rw [hfa] at h
      replace h : findSomeL f rest = some b := h
      obtain ⟨x, hx, hfx⟩ := ih h
      exact ⟨x, by simp [hx], hfx⟩

/-- Claim C7: the primary router returns `none` on an empty category value,
returns `none` exactly when no catalog document hosts a matching
`sous_categorie`-equals condition in any view, and any returned view id is
hosted by such a matching condition.  The legacy router also returns `none`
on an empty value or empty candidate set, prefers the first candidate
document whose `sous_categorie`-equals condition set is a single condition
(returning its tab when that tab is unambiguous), and on an
ambiguous multi-tab candidate falls back to substring heuristics on the
category value (`naturalisation`, then `décret`/`decret`). -/
theorem getTabForNatureDemande_spec :
    (∀ catalog : List DocumentConfig, getTabForNatureDemande catalog "" = none) ∧
    (∀ (catalog : List DocumentConfig) (v : String),
      getTabForNatureDemande catalog v = none ↔
        (v = "" ∨ ∀ d ∈ catalog, ∀ p ∈ d.tabConfig, ∀ c ∈ p.2.conditions,
          isCategoryMatch v c = false)) ∧
    (∀ (catalog : List DocumentConfig) (v t : String),
      getTabForNatureDemande catalog v = some t →
        ∃ d ∈ catalog, ∃ p ∈ d.tabConfig, p.1 = t ∧
          ∃ c ∈ p.2.conditions, isCategoryMatch v c = true) ∧
    (∀ catalog : List LegacyDocument, getTabForNatureDemandeLegacy catalog "" = none) ∧
    (∀ (catalog : List LegacyDocument) (v : String),
      matchingDocsLegacy catalog v = [] → getTabForNatureDemandeLegacy catalog v = none) ∧
    (∀ (catalog : List LegacyDocument) (v : String) (d0 : LegacyDocument), v ≠ "" →
      (matchingDocsLegacy catalog v).find? hasSingleCategoryCondition = some d0 →
      (∀ l, d0.tab = .multi l → l.length ≤ 1) →
      getTabForNatureDemandeLegacy catalog v = some (getTabValue d0.tab)) ∧
    (∀ (catalog : List LegacyDocument) (v : String) (d0 : LegacyDocument), v ≠ "" →
      docToUseLegacy catalog v = some d0 →
      (∃ l, d0.tab = .multi l ∧ 1 < l.length) →
      ((matchingDocsLegacy catalog v).find? fun doc =>
        (tabFieldList doc.tab).contains "naturalisation_mariage" &&
          !(tabFieldList doc.tab).contains "decret").isSome = true →
      jsIncludes (jsToLower (normalizeForComparison v)) "naturalisation" = true →
      getTabForNatureDemandeLegacy catalog v = some "naturalisation_mariage") ∧
    (∀ (catalog : List LegacyDocument) (v : String) (d0 : LegacyDocument), v ≠ "" →
      docToUseLegacy catalog v = some d0 →
      (∃ l, d0.tab = .multi l ∧ 1 < l.length) →
      ((((matchingDocsLegacy catalog v).find? fun doc =>
          (tabFieldList doc.tab).contains "naturalisation_mariage" &&
            !(tabFieldList doc.tab).contains "decret").isSome &&
        jsIncludes (jsToLower (normalizeForComparison v)) "naturalisation") = false) →
      (jsIncludes (jsToLower (normalizeForComparison v)) "décret" ||
        jsIncludes (jsToLower (normalizeForComparison v)) "decret") = true →
      getTabForNatureDemandeLegacy catalog v = some "decret") := by
  refine ⟨?_, ?_, ?_, ?_, ?_, ?_, ?_, ?_⟩
  · intro catalog
    rfl
  · intro catalog v
    unfold getTabForNatureDemande
    by_cases hv : v = ""
    · rw [if_pos (by simpa using hv)]
      simp [hv]
    · rw [if_neg (by simpa using hv)]
      rw [findSomeL_eq_none_iff]
      constructor
      · intro h
        right
        intro d hd p hp c hc
        have hdp := h d hd
        rw [findSomeL_eq_none_iff] at hdp
        have := hdp p hp
        by_cases hmatch : isCategoryMatch v c = true
        · exfalso
          rw [if_pos (List.any_eq_true.mpr ⟨c, hc, hmatch⟩)] at this
          exact Option.some_ne_none _ this
        · simpa using hmatch
      · rintro (h | h)
        · exact absurd h hv
        · intro d hd
          rw [findSomeL_eq_none_iff]
          intro p hp
          rw [if_neg]
          rw [List.any_eq_true]
          rintro ⟨c, hc, hmatch⟩
          have := h d hd p hp c hc
          rw [this] at hmatch
          exact absurd hmatch (by simp)
  · intro catalog v t h
    unfold getTabForNatureDemande at h
    by_cases hv : v = ""
    · rw [if_pos (by simpa using hv)] at h
      exact absurd h (by simp)
    · rw [if_neg (by simpa using hv)] at h
      obtain ⟨d, hd, hfd⟩ := findSomeL_eq_some _ _ _ h
      obtain ⟨p, hp, hfp⟩ := findSomeL_eq_some _ _ _ hfd
      by_cases hany : p.2.conditions.any (isCategoryMatch v) = true
      · rw [if_pos hany] at hfp
        obtain ⟨c, hc, hmatch⟩ := List.any_eq_true.mp hany
        exact ⟨d, hd, p, hp, by simpa using hfp, c, hc, hmatch⟩
      · rw [if_neg hany] at hfp
        exact absurd hfp (by simp)
  · intro catalog
    rfl
  · intro catalog v h
    unfold getTabForNatureDemandeLegacy docToUseLegacy
    by_cases hv : v = ""
    · rw [if_pos (by simpa using hv)]
    · rw [if_neg (by simpa using hv), h]
  · intro catalog v d0 hv hfind htab
    have hd0 : docToUseLegacy catalog v = some d0 := by
      unfold docToUseLegacy
      cases hm : matchingDocsLegacy catalog v with
      | nil => rw [hm] at hfind; exact absurd hfind (by simp)
      | cons d rest =>
        rw [hm] at hfind
        rw [hfind]
        rfl
    unfold getTabForNatureDemandeLegacy
    rw [if_neg (by simpa using hv), hd0]
    dsimp only
    cases htf : d0.tab with
    | single sname => rfl
    | multi l =>
      have hle := htab l htf
      dsimp only
      rw [if_neg (Nat.not_lt.mpr hle)]
  · intro catalog v d0 hv huse hmulti hnat hincl
    unfold getTabForNatureDemandeLegacy
    rw [if_neg (by simpa using hv), huse]
    dsimp only
    obtain ⟨l, hl, hlen⟩ := hmulti
    rw [hl]
    dsimp only
    rw [if_pos (by simpa using hlen), if_pos (by rw [hnat, hincl]; rfl)]
  · intro catalog v d0 hv huse hmulti hno hdec
    unfold getTabForNatureDemandeLegacy
    rw [if_neg (by simpa using hv), huse]
    dsimp only
    obtain ⟨l, hl, hlen⟩ := hmulti
    rw [hl]
    dsimp only
    rw [if_pos (by simpa using hlen), if_neg (by rw [hno]; simp), if_pos hdec]

/-- Claim C7, witness: a concrete legacy catalog where the second document is
preferred for carrying a single category condition, a multi-tab catalog
falling back to the `naturalisation` heuristic, and the empty value on the
primary router. -/
theorem getTabForNatureDemande_spec_witness :
    getTabForNatureDemande [] "" = none ∧
    getTabForNatureDemandeLegacy
      [⟨"d1", "D1", "r1", "p1", .single "t1",
          [⟨"sous_categorie", "equals", "V"⟩, ⟨"sous_categorie", "equals", "W"⟩]⟩,
        ⟨"d2", "D2", "r2", "p2", .single "t2", [⟨"sous_categorie", "equals", "V"⟩]⟩]
      "V" = some "t2" ∧
    getTabForNatureDemandeLegacy
      [⟨"dm", "DM", "r", "p", .multi ["naturalisation_mariage", "decret2"],
          [⟨"sous_categorie", "equals", "Demande naturalisation"⟩]⟩]
      "Demande naturalisation" = some "naturalisation_mariage" :=
  ⟨getTabForNatureDemande_spec.1 [],
    getTabForNatureDemande_spec.2.2.2.2.2.1 _ "V"
      ⟨"d2", "D2", "r2", "p2", .single "t2", [⟨"sous_categorie", "equals", "V"⟩]⟩
      (by decide) (by decide) (by intro l hcontra; exact TabField.noConfusion hcontra),
    getTabForNatureDemande_spec.2.2.2.2.2.2.1 _ "Demande naturalisation"
      ⟨"dm", "DM", "r", "p", .multi ["naturalisation_mariage", "decret2"],
        [⟨"sous_categorie", "equals", "Demande naturalisation"⟩]⟩
      (by decide) (by decide) ⟨["naturalisation_mariage", "decret2"], rfl, by decide⟩
      (by decide) (by decide)⟩

theorem updateLoop_zero (oracle : Nat → ApiResult) (k : Nat)
    (properties : List (String × String)) :
    updateLoop oracle k 0 properties = ⟨"error", properties.map Prod.fst⟩ := rfl

theorem updateLoop_succ (oracle : Nat → ApiResult) (k r : Nat)
    (properties : List (String × String)) :
    updateLoop oracle k (r + 1) properties =
      match oracle k with
      | .ok => ⟨"success", []⟩
      | .notFound => ⟨"success", []⟩
      | .badRequest body =>
        if (extractFailedProperties body).isEmpty then ⟨"error", []⟩
        else
          if (properties.filter fun p =>
              !(extractFailedProperties body).contains p.1).isEmpty then
            ⟨"success", []⟩
          else updateLoop oracle (k + 1) r
            (properties.filter fun p => !(extractFailedProperties body).contains p.1)
      | .otherError => ⟨"error", []⟩ := rfl

theorem updateLoop_congr (oracle oracle2 : Nat → ApiResult) (retries k : Nat)
    (properties : List (String × String))
    (h : ∀ j, j < retries → oracle (k + j) = oracle2 (k + j)) :
    updateLoop oracle k retries properties = updateLoop oracle2 k retries properties := by
  induction retries generalizing k properties with
  | zero => rfl
  | succ r ih =>
    have h0 : oracle k = oracle2 k := by simpa using h 0 (Nat.succ_pos r)
    rw [updateLoop_succ, updateLoop_succ, ← h0]
    cases oracle k with
    | ok => rfl
    | notFound => rfl
    | otherError => rfl
    | badRequest body =>
      cases hfail : (extractFailedProperties body).isEmpty with
      | true => simp [hfail]
      | false =>
        simp only [hfail, Bool.false_eq_true, if_false]
        cases hrem : (properties.filter fun p =>
            !(extractFailedProperties body).contains p.1).isEmpty with
        | true => simp [hrem]
        | false =>
          simp only [hrem, Bool.false_eq_true, if_false]
          exact ih (k + 1) _ fun j hj => by
            have := h (j + 1) (by omega)
            simpa [Nat.add_assoc, Nat.add_comm 1 j] using this

/-- Claim C4, counterexample: with three outgoing fields and an oracle that keeps
rejecting one field per 400 response, the retry budget runs out with a
non-empty batch and the function reports status `"error"` naming the
remaining field — not the `"partial_success"` result the claim describes. -/
theorem updateDocumentsMain_counterexample :
    (updateDocumentsMain
        [("a_required", .bool true), ("b_required", .bool true), ("c_required", .bool true)]
        (fun k => if k == 0 then .badRequest (.errors [⟨["a_required"], none⟩])
          else .badRequest (.errors [⟨["b_required"], none⟩]))).status = "error" ∧
    (updateDocumentsMain
        [("a_required", .bool true), ("b_required", .bool true), ("c_required", .bool true)]
        (fun k => if k == 0 then .badRequest (.errors [⟨["a_required"], none⟩])
          else .badRequest (.errors [⟨["b_required"], none⟩]))).status
      ≠ "partial_success" ∧
    (updateDocumentsMain
        [("a_required", .bool true), ("b_required", .bool true), ("c_required", .bool true)]
        (fun k => if k == 0 then .badRequest (.errors [⟨["a_required"], none⟩])
          else .badRequest (.errors [⟨["b_required"], none⟩]))).remainingFields
      = ["c_required"] :=
  ⟨by decide, by decide, by decide⟩

/-- Claim C4, amended: the full-save write path extracts offending field names
from the error payload (structured entries preferred, pattern-matched
string fallback), removes them from the batch and retries, making at most
two calls in total; a batch drained of all its fields reports success;
fields still failing once the budget is exhausted produce an error result
naming the remaining fields (this path never reports a partial success);
and a record-not-found error is a benign no-op success. -/
theorem updateDocumentsMain_amended :
    (∀ (documents : List (String × DocVal)) (oracle : Nat → ApiResult),
      oracle 0 = ApiResult.notFound →
      (updateDocumentsMain documents oracle).status = "success") ∧
    (∀ (documents : List (String × DocVal)) (oracle : Nat → ApiResult) (body : ErrBody),
      oracle 0 = ApiResult.badRequest body →
      extractFailedProperties body ≠ [] →
      (∀ k ∈ (buildProperties documents).map Prod.fst,
        k ∈ extractFailedProperties body) →
      (updateDocumentsMain documents oracle).status = "success") ∧
    (∀ (documents : List (String × DocVal)) (oracle oracle2 : Nat → ApiResult),
      oracle 0 = oracle2 0 → oracle 1 = oracle2 1 →
      updateDocumentsMain documents oracle = updateDocumentsMain documents oracle2) ∧
    (∀ (documents : List (String × DocVal)) (oracle : Nat → ApiResult)
        (body0 body1 : ErrBody),
      oracle 0 = ApiResult.badRequest body0 →
      oracle 1 = ApiResult.badRequest body1 →
      extractFailedProperties body0 ≠ [] →
      extractFailedProperties body1 ≠ [] →
      ((buildProperties documents).filter fun p =>
        !(extractFailedProperties body0).contains p.1) ≠ [] →
      (((buildProperties documents).filter fun p =>
          !(extractFailedProperties body0).contains p.1).filter fun p =>
        !(extractFailedProperties body1).contains p.1) ≠ [] →
      (updateDocumentsMain documents oracle).status = "error" ∧
      (updateDocumentsMain documents oracle).remainingFields =
        ((((buildProperties documents).filter fun p =>
            !(extractFailedProperties body0).contains p.1).filter fun p =>
          !(extractFailedProperties body1).contains p.1)).map Prod.fst) ∧
    (∀ entries : List ErrEntry, (∀ e ∈ entries, e.message = none) →
      extractFailedProperties (.errors entries)
        = entries.flatMap ErrEntry.contextPropertyName) ∧
    "foo_required" ∈
      extractFailedProperties (.str "Property \"foo_required\" does not exist") := by
  refine ⟨?_, ?_, ?_, ?_, ?_, by decide⟩
  · intro documents oracle h
    unfold updateDocumentsMain
    cases hprops : (buildProperties documents).isEmpty with
    | true => simp [hprops]
    | false =>
      simp only [hprops, Bool.false_eq_true, if_false]
      rw [updateLoop_succ, h]
  · intro documents oracle body h hne hall
    unfold updateDocumentsMain
    cases hprops : (buildProperties documents).isEmpty with
    | true => simp [hprops]
    | false =>
      simp only [hprops, Bool.false_eq_true, if_false]
      rw [updateLoop_succ, h]
      dsimp only
      rw [if_neg (by
        intro hcontra
        exact hne (List.isEmpty_iff.mp hcontra))]
      have hdrain : ((buildProperties documents).filter fun p =>
          !(extractFailedProperties body).contains p.1).isEmpty = true := by
        rw [List.isEmpty_iff, List.filter_eq_nil_iff]
        intro p hp
        have hmem : p.1 ∈ extractFailedProperties body :=
          hall p.1 (List.mem_map.mpr ⟨p, hp, rfl⟩)
        simp [hmem]
      rw [if_pos hdrain]
  · intro documents oracle oracle2 h0 h1
    unfold updateDocumentsMain
    cases hprops : (buildProperties documents).isEmpty with
    | true => simp [hprops]
    | false =>
      simp only [hprops, Bool.false_eq_true, if_false]
      refine updateLoop_congr oracle oracle2 2 0 _ fun j hj => ?_
      interval_cases j
      · exact h0
      · exact h1
  · intro documents oracle body0 body1 h0 h1 hne0 hne1 hrem0 hrem1
    have hpne : buildProperties documents ≠ [] := by
      intro hcontra
      rw [hcontra] at hrem0
      exact hrem0 rfl
    unfold updateDocumentsMain
    rw [if_neg fun hcontra => hpne (List.isEmpty_iff.mp hcontra)]
    rw [updateLoop_succ, h0]
    dsimp only
    rw [if_neg fun hcontra => hne0 (List.isEmpty_iff.mp hcontra)]
    rw [if_neg fun hcontra => hrem0 (List.isEmpty_iff.mp hcontra)]
    rw [updateLoop_succ, h1]
    dsimp only
    rw [if_neg fun hcontra => hne1 (List.isEmpty_iff.mp hcontra)]
    rw [if_neg fun hcontra => hrem1 (List.isEmpty_iff.mp hcontra)]
    rw [updateLoop_zero]
    exact ⟨rfl, rfl⟩
  · intro entries h
    show entries.flatMap (fun e =>
        e.contextPropertyName ++
          (match e.message with
           | some m => scanPatterns m
           | none => []))
      = entries.flatMap ErrEntry.contextPropertyName
    induction entries with
    | nil => rfl
    | cons e rest ih =>
      rw [List.flatMap_cons, List.flatMap_cons, h e (by simp),
        ih fun e2 he2 => h e2 (by simp [he2])]
      simp

/-- Claim C4, witness: the amended behaviour at concrete inputs: a 404 is a
benign success, a 400 naming every field drains the batch into a success,
and the exhausted budget produces the error result naming the remaining
field. -/
theorem updateDocumentsMain_amended_witness :
    (updateDocumentsMain [("a_required", .bool true)]
      (fun _ => ApiResult.notFound)).status = "success" ∧
    (updateDocumentsMain [("a_required", .bool true)]
      (fun _ => ApiResult.badRequest (.errors [⟨["a_required"], none⟩]))).status
      = "success" ∧
    (updateDocumentsMain
        [("a_required", .bool true), ("b_required", .bool true), ("c_required", .bool true)]
        (fun k => if k == 0 then ApiResult.badRequest (.errors [⟨["a_required"], none⟩])
          else ApiResult.badRequest (.errors [⟨["b_required"], none⟩]))).remainingFields
      = ["c_required"] :=
  ⟨updateDocumentsMain_amended.1 [("a_required", .bool true)] _ rfl,
    updateDocumentsMain_amended.2.1 [("a_required", .bool true)] _
      (.errors [⟨["a_required"], none⟩]) rfl (by decide) (by decide),
    ((updateDocumentsMain_amended.2.2.2.1
        [("a_required", .bool true), ("b_required", .bool true), ("c_required", .bool true)]
        (fun k => if k == 0 then ApiResult.badRequest (.errors [⟨["a_required"], none⟩])
          else ApiResult.badRequest (.errors [⟨["b_required"], none⟩]))
        (.errors [⟨["a_required"], none⟩]) (.errors [⟨["b_required"], none⟩])
        rfl rfl (by decide) (by decide) (by decide) (by decide)).2).trans (by decide)⟩

end DocList
